import Mathlib

/-!
Verification development for the `derJD/ansible-collection-general` Ansible
collection (two plugins): the `dict2ini` filter
(`plugins/filter/dict2ini.py`) and the `http` inventory source
(`plugins/inventory/http.py`).

Python dictionaries are embedded as association lists (`List (String × _)`)
preserving insertion order, which is Python's dict iteration order.  JSON
values (and arbitrary Python scalars flowing through the filter) are embedded
as the inductive type `Json`.  The inventory plugin's network effects are
embedded by passing the HTTP response as an explicit argument, and its calls
into the host-owned inventory sink (`add_group`, `add_host`, `add_child`,
`_populate_host_vars`) are recorded as an explicit trace of `SinkCall`
events.  Python exceptions are embedded as `PyError` values: `AnsibleError`
is the configuration error, `AnsibleParserError` the parse error, and
`keyError` / `typeError` are the unguarded built-in lookup failures.
-/

set_option autoImplicit false

/-- Embedding of Python/JSON values: strings, integers, booleans, null,
arrays and objects (objects as insertion-ordered association lists). -/
inductive Json where
  | str (s : String)
  | num (n : Int)
  | bool (b : Bool)
  | null
  | arr (items : List Json)
  | obj (fields : List (String × Json))

/-- A flattened INI record, as produced by `dict2ini`:
`dict(section=section, option=option, value=value)`. -/
structure ConfigRecord where
  «section» : String
  option : String
  value : Json

/-- Embedding of the quoting branch of `dict2ini` (dict2ini.py lines 53-55):
`if isinstance(value, str) and quote: value = f'"{value}"'`. -/
def quoteVal (quote : Bool) : Json → Json
  | .str s => if quote then .str ("\"" ++ s ++ "\"") else .str s
  | v => v

/-- Embedding of `dict2ini(data, quote=True)` (dict2ini.py lines 50-56):
iterate the outer mapping in order, for each section iterate its option
mapping in order, emit one record per option, quoting string values when
`quote` is set. -/
def dict2ini (data : List (String × List (String × Json))) (quote : Bool) :
    List ConfigRecord :=
  match data with
  | [] => []
  | («section», elements) :: rest =>
    elements.map (fun ov => ⟨«section», ov.1, quoteVal quote ov.2⟩)
      ++ dict2ini rest quote

/-- Embedding of Python exceptions raised by the inventory plugin.
`ansibleError` is `AnsibleError` (the configuration error), and
`ansibleParserError` is `AnsibleParserError` (the parse error); `keyError`
and `typeError` are the unguarded built-in `KeyError` (missing dict key)
and `TypeError`/`AttributeError` (subscript or attribute on a wrong type). -/
inductive PyError where
  | keyError (key : String)
  | typeError
  | ansibleError (msg : String)
  | ansibleParserError (msg : String)

/-- One call made by the plugin into the host-owned inventory sink. -/
inductive SinkCall where
  | populateHostVars (host : String) (vars : Json)
  | addGroup (group : String)
  | addHost (host : Json) (group : String)
  | addChild (group : String) (child : Json)

/-- First value bound to a key in an association list (Python dict lookup;
insertion order, unique keys). -/
def lookupKey : List (String × Json) → String → Option Json
  | [], _ => none
  | (k, v) :: rest, key => if k = key then some v else lookupKey rest key

/-- Embedding of a Python `d[key]` subscript: `KeyError` when the key is
absent from a dict, `TypeError` when the value is not a dict at all. -/
def getItem (j : Json) (key : String) : Except PyError Json :=
  match j with
  | .obj fields =>
    match lookupKey fields key with
    | some v => .ok v
    | none => .error (.keyError key)
  | _ => .error .typeError

/-- Whether a string contains another as a substring (Python `pat in s`). -/
def strContainsSub (s pat : String) : Bool :=
  decide (pat.data <:+: s.data)

/-- Embedding of an HTTP response as seen by the plugin: status code,
`Content-Type` header and the (already JSON-decoded) body. -/
structure Response where
  status_code : Nat
  contentType : String
  body : Json

/-- Embedding of `InventoryModule.is_valid_content` (http.py lines 126-144):
raise `AnsibleError` mentioning the status code when it is >= 300, return
`True` when the `Content-Type` header contains the substring "json", and
raise `AnsibleParserError` otherwise. -/
def is_valid_content (url : String) (r : Response) : Except PyError Bool :=
  if 300 ≤ r.status_code then
    .error (.ansibleError ("Server returned status code "
      ++ toString r.status_code
      ++ ". Maybe server is in Maintenance or unreachable..."))
  else if strContainsSub r.contentType "json" then
    .ok true
  else
    .error (.ansibleParserError (url ++ " did not return json. The page must"
      ++ " return the same content as the ansible-inventory --list command."))

/-- Embedding of `InventoryModule.get_generic_page` (http.py lines 96-103):
one GET request (with or without Basic credentials, which only shape the
request and are abstracted into the `r` argument); the decoded body when
`is_valid_content` returns `True`, Python's implicit `None` otherwise.
Exceptions from `is_valid_content` propagate. -/
def get_generic_page (url : String) (r : Response) :
    Except PyError (Option Json) :=
  match is_valid_content url r with
  | .error e => .error e
  | .ok true => .ok (some r.body)
  | .ok false => .ok none

/-- Embedding of `InventoryModule.get_gitlab_page` (http.py lines 105-124):
a session performing GET (login page scrape), POST (login) and a final GET;
the HTML/XPath scraping and the session state are network-side and abstracted
into the final response `r`, whose body is subject to the same
`is_valid_content` check as the generic page. -/
def get_gitlab_page (url : String) (r : Response) :
    Except PyError (Option Json) :=
  match is_valid_content url r with
  | .error e => .error e
  | .ok true => .ok (some r.body)
  | .ok false => .ok none

/-- Embedding of `InventoryModule.add_hostvars` (http.py lines 146-150):
`hostvars = data['_meta']['hostvars']`, then one
`_populate_host_vars([host], hostvars[host])` per host key, in dict order.
Returns the trace of sink calls and the error, if any, that aborted it. -/
def add_hostvars (data : Json) : List SinkCall × Option PyError :=
  match getItem data "_meta" with
  | .error e => ([], some e)
  | .ok m =>
    match getItem m "hostvars" with
    | .error e => ([], some e)
    | .ok (.obj hvs) =>
      (hvs.map (fun p => .populateHostVars p.1 p.2), none)
    | .ok _ => ([], some .typeError)

/-- Embedding of the loop body of `InventoryModule.add_groups`
(http.py lines 152-168) over the top-level key/value pairs: skip `_meta`,
call `add_group(group)`, then — when `mode` is "hosts" or "children" and the
group's value has a `mode` key — call `add_host(host, group)` resp.
`add_child(group, child)` for each entry of that list.  A non-dict group
value makes `groups[group].keys()` raise (`typeError`); a non-list `hosts` /
`children` value makes the inner `for` raise.  Returns the trace of sink
calls and the error, if any, that aborted the loop. -/
def add_groups_list (mode : String) :
    List (String × Json) → List SinkCall × Option PyError
  | [] => ([], none)
  | (group, gval) :: rest =>
    if group = "_meta" then add_groups_list mode rest
    else if mode = "hosts" ∨ mode = "children" then
      match gval with
      | .obj fields =>
        match lookupKey fields mode with
        | some entries =>
          match entries with
          | .arr items =>
            let calls := items.map (fun it =>
              if mode = "hosts" then SinkCall.addHost it group
              else SinkCall.addChild group it)
            let tail := add_groups_list mode rest
            (SinkCall.addGroup group :: (calls ++ tail.1), tail.2)
          | _ => ([SinkCall.addGroup group], some .typeError)
        | none =>
          let tail := add_groups_list mode rest
          (SinkCall.addGroup group :: tail.1, tail.2)
      | _ => ([SinkCall.addGroup group], some .typeError)
    else
      let tail := add_groups_list mode rest
      (SinkCall.addGroup group :: tail.1, tail.2)

/-- Embedding of `InventoryModule.add_groups(groups, mode)`
(http.py lines 152-168): iterate the top-level dict. -/
def add_groups (groups : Json) (mode : String) :
    List SinkCall × Option PyError :=
  match groups with
  | .obj kvs => add_groups_list mode kvs
  | _ => ([], some .typeError)

/-- Embedding of the population step of `InventoryModule.parse`
(http.py lines 214-216): `add_hostvars(data)`, then
`add_groups(data, "hosts")`, then `add_groups(data, "children")`; an
exception aborts the remaining steps. -/
def populate (data : Json) : List SinkCall × Option PyError :=
  let r1 := add_hostvars data
  match r1.2 with
  | some e => (r1.1, some e)
  | none =>
    let r2 := add_groups data "hosts"
    match r2.2 with
    | some e => (r1.1 ++ r2.1, some e)
    | none =>
      let r3 := add_groups data "children"
      (r1.1 ++ r2.1 ++ r3.1, r3.2)

/-- The credential/url settings visible to `parse`: environment variables
(`HTTP_URL`, `HTTP_AUTH_METHOD`, ...) read in `__init__`, and the values the
config file provides through `get_option` (http.py lines 175-185). -/
structure ParseArgs where
  envUrl : Option String
  envAuthMethod : Option String
  cfgUrl : Option String
  cfgAuthMethod : Option String

/-- Outcome of one `parse` call: how many HTTP requests were issued, the
trace of sink calls, and the error, if any, that aborted the call. -/
structure ParseOutcome where
  requests : Nat
  calls : List SinkCall
  error : Option PyError

/-- Embedding of `InventoryModule.parse` (http.py lines 172-216) after the
host has read the config file: resolve each option from the environment
first, then the config file; fail when `url` is still `None`; fetch via the
generic branch when `auth_method` is in `[None, "None", "basic"]` (one GET)
or the gitlab branch when it is `"gitlab"` (GET, POST, GET = three
requests), otherwise fetch nothing; fail with the parse error when no data
was obtained; otherwise populate.  The network is abstracted into `r`, the
response the server gives for the final GET of whichever branch runs. -/
def parse (a : ParseArgs) (r : Response) : ParseOutcome :=
  let url := a.envUrl <|> a.cfgUrl
  let auth_method := a.envAuthMethod <|> a.cfgAuthMethod
  match url with
  | none =>
    ⟨0, [], some (.ansibleError ("url is missing. Please set it either as"
      ++ " parameter or environment variable (HTTP_URL)"))⟩
  | some u =>
    let fetched : Nat × Option (Except PyError (Option Json)) :=
      if auth_method = none ∨ auth_method = some "None"
          ∨ auth_method = some "basic" then
        (1, some (get_generic_page u r))
      else if auth_method = some "gitlab" then
        (3, some (get_gitlab_page u r))
      else
        (0, none)
    match fetched.2 with
    | none =>
      ⟨fetched.1, [], some (.ansibleParserError
        "Did not received any data. Can not parse inventory.")⟩
    | some (.error e) => ⟨fetched.1, [], some e⟩
    | some (.ok none) =>
      ⟨fetched.1, [], some (.ansibleParserError
        "Did not received any data. Can not parse inventory.")⟩
    | some (.ok (some data)) =>
      let p := populate data
      ⟨fetched.1, p.1, p.2⟩

/-- Discriminator: is this sink call a `_populate_host_vars` call? -/
def SinkCall.isPopulate : SinkCall → Bool
  | .populateHostVars _ _ => true
  | _ => false

/-- Discriminator: is this sink call an `add_host` call? -/
def SinkCall.isAddHost : SinkCall → Bool
  | .addHost _ _ => true
  | _ => false

/-- Discriminator: is this sink call an `add_child` call? -/
def SinkCall.isAddChild : SinkCall → Bool
  | .addChild _ _ => true
  | _ => false

/-- Discriminator: is this sink call `add_group(g)` for the given `g`? -/
def SinkCall.isAddGroupName (g : String) : SinkCall → Bool
  | .addGroup h => h == g
  | _ => false

/-- The group-name argument of a sink call: the `group` parameter of
`add_group`/`add_host`/`add_child`; `_populate_host_vars` has none. -/
def SinkCall.groupName : SinkCall → Option String
  | .populateHostVars _ _ => none
  | .addGroup g => some g
  | .addHost _ g => some g
  | .addChild g _ => some g

/-- How many times `add_group(g)` occurs in a trace. -/
def countAddGroup (g : String) (l : List SinkCall) : Nat :=
  (l.filter (SinkCall.isAddGroupName g)).length

/-- How many of an association list's pairs carry the key `g`. -/
def countKey (g : String) (kvs : List (String × Json)) : Nat :=
  (kvs.filter (fun p => p.1 == g)).length

/-- Sum of the option counts of all sections of a `dict2ini` input. -/
def sizesSum (data : List (String × List (String × Json))) : Nat :=
  (data.map (fun se => se.2.length)).sum

/-- Number of records emitted for the first `i` sections of a `dict2ini`
input: the position at which section `i`'s records start. -/
def prefixSizes (data : List (String × List (String × Json))) (i : Nat) :
    Nat :=
  sizesSum (data.take i)

/-- The top-level entries of the specification's sample inventory document:
`{"_meta": {"hostvars": {"h1": {"a": 1}}}, "g1": {"hosts": ["h1"]},
"g2": {"children": ["g1"]}}`. -/
def sampleKvs : List (String × Json) :=
  [("_meta", .obj [("hostvars", .obj [("h1", .obj [("a", .num 1)])])]),
   ("g1", .obj [("hosts", .arr [.str "h1"])]),
   ("g2", .obj [("children", .arr [.str "g1"])])]

/-- The specification's sample inventory document as a JSON value. -/
def sampleDoc : Json := .obj sampleKvs

/-- Shape of one group value in the specification's `InventoryDocument`
data model: an object whose `hosts` and `children` entries, when present,
are lists. -/
def wfGroupVal : Json → Bool
  | .obj fields =>
    (match lookupKey fields "hosts" with
     | some (.arr _) => true
     | some _ => false
     | none => true) &&
    (match lookupKey fields "children" with
     | some (.arr _) => true
     | some _ => false
     | none => true)
  | _ => false

/-- Shape of the specification's `InventoryDocument` data model: a `_meta`
entry holding an object `hostvars`, and every other top-level entry a
well-shaped group value. -/
def wfDoc (kvs : List (String × Json)) : Bool :=
  (match lookupKey kvs "_meta" with
   | some (.obj mkvs) =>
     (match lookupKey mkvs "hostvars" with
      | some (.obj _) => true
      | _ => false)
   | _ => false) &&
  kvs.all (fun p => p.1 == "_meta" || wfGroupVal p.2)

theorem countAddGroup_append (g : String) (l1 l2 : List SinkCall) :
    countAddGroup g (l1 ++ l2) = countAddGroup g l1 + countAddGroup g l2 := by
  simp [countAddGroup, List.filter_append]

theorem countAddGroup_eq_zero (g : String) (l : List SinkCall)
    (h : ∀ c ∈ l, SinkCall.isAddGroupName g c = false) :
    countAddGroup g l = 0 := by
  simp [countAddGroup]
  intro c hc
  simp [h c hc]

/-- Every call emitted by `add_hostvars` is a `_populate_host_vars` call. -/
theorem add_hostvars_all_populate (data : Json) :
    ∀ c ∈ (add_hostvars data).1, SinkCall.isPopulate c = true := by
  intro c hc
  unfold add_hostvars at hc
  rcases data with _ | _ | _ | _ | _ | fields <;>
    simp [getItem] at hc
  rcases hm : lookupKey fields "_meta" with _ | m <;> simp [hm] at hc
  rcases m with _ | _ | _ | _ | _ | mfields <;> simp [getItem] at hc
  rcases hh : lookupKey mfields "hostvars" with _ | hv <;> simp [hh] at hc
  rcases hv with _ | _ | _ | _ | _ | hvs <;> simp at hc
  obtain ⟨p, v, _, hp⟩ := hc
  rw [← hp]
  rfl

/-- Shape of the calls emitted by one `add_groups` pass: never a
`_populate_host_vars` call; never an `add_child` in the "hosts" pass and
never an `add_host` outside it. -/
theorem add_groups_list_kinds (mode : String) (kvs : List (String × Json)) :
    ∀ c ∈ (add_groups_list mode kvs).1,
      SinkCall.isPopulate c = false ∧
      (mode = "hosts" → SinkCall.isAddChild c = false) ∧
      (mode ≠ "hosts" → SinkCall.isAddHost c = false) := by
  induction kvs with
  | nil => simp [add_groups_list]
  | cons hd rest ih =>
    obtain ⟨k, v⟩ := hd
    intro c hc
    simp only [add_groups_list] at hc
    by_cases hk : k = "_meta"
    · simp only [hk, if_pos rfl] at hc
      exact ih c hc
    · simp only [if_neg hk] at hc
      by_cases hm : mode = "hosts" ∨ mode = "children"
      · simp only [if_pos hm] at hc
        rcases v with s | n | b | _ | its | fields
        · simp at hc; subst hc; exact ⟨rfl, fun _ => rfl, fun _ => rfl⟩
        · simp at hc; subst hc; exact ⟨rfl, fun _ => rfl, fun _ => rfl⟩
        · simp at hc; subst hc; exact ⟨rfl, fun _ => rfl, fun _ => rfl⟩
        · simp at hc; subst hc; exact ⟨rfl, fun _ => rfl, fun _ => rfl⟩
        · simp at hc; subst hc; exact ⟨rfl, fun _ => rfl, fun _ => rfl⟩
        · rcases hl : lookupKey fields mode with _ | entries
          · simp only [hl] at hc
            simp at hc
            rcases hc with hc | hc
            · subst hc; exact ⟨rfl, fun _ => rfl, fun _ => rfl⟩
            · exact ih c hc
          · simp only [hl] at hc
            rcases entries with s | n | b | _ | items | gfs
            · simp at hc; subst hc; exact ⟨rfl, fun _ => rfl, fun _ => rfl⟩
            · simp at hc; subst hc; exact ⟨rfl, fun _ => rfl, fun _ => rfl⟩
            · simp at hc; subst hc; exact ⟨rfl, fun _ => rfl, fun _ => rfl⟩
            · simp at hc; subst hc; exact ⟨rfl, fun _ => rfl, fun _ => rfl⟩
            · simp at hc
              rcases hc with hc | ⟨it, _, hit⟩ | hc
              · subst hc; exact ⟨rfl, fun _ => rfl, fun _ => rfl⟩
              · by_cases hmh : mode = "hosts"
                · simp only [hmh, if_pos rfl] at hit
                  subst hit
                  exact ⟨rfl, fun _ => rfl, fun hne => absurd hmh hne⟩
                · simp only [if_neg hmh] at hit
                  subst hit
                  exact ⟨rfl, fun he => absurd he hmh, fun _ => rfl⟩
              · exact ih c hc
            · simp at hc; subst hc; exact ⟨rfl, fun _ => rfl, fun _ => rfl⟩
      · simp only [if_neg hm] at hc
        simp at hc
        rcases hc with hc | hc
        · subst hc; exact ⟨rfl, fun _ => rfl, fun _ => rfl⟩
        · exact ih c hc

/-- No call emitted by one `add_groups` pass carries `_meta` as its
group-name argument: the loop skips the `_meta` key (http.py lines 153-154)
and every emitted call names the current, non-`_meta` group. -/
theorem add_groups_list_no_meta (mode : String) (kvs : List (String × Json)) :
    ∀ c ∈ (add_groups_list mode kvs).1,
      SinkCall.groupName c ≠ some "_meta" := by
  induction kvs with
  | nil => simp [add_groups_list]
  | cons hd rest ih =>
    obtain ⟨k, v⟩ := hd
    intro c hc
    simp only [add_groups_list] at hc
    by_cases hk : k = "_meta"
    · simp only [hk, if_pos rfl] at hc
      exact ih c hc
    · simp only [if_neg hk] at hc
      have hknm : (SinkCall.addGroup k).groupName ≠ some "_meta" := by
        simp [SinkCall.groupName]
        exact hk
      by_cases hm : mode = "hosts" ∨ mode = "children"
      · simp only [if_pos hm] at hc
        rcases v with s | n | b | _ | its | fields
        · simp at hc; subst hc; exact hknm
        · simp at hc; subst hc; exact hknm
        · simp at hc; subst hc; exact hknm
        · simp at hc; subst hc; exact hknm
        · simp at hc; subst hc; exact hknm
        · rcases hl : lookupKey fields mode with _ | entries
          · simp only [hl] at hc
            simp at hc
            rcases hc with hc | hc
            · subst hc; exact hknm
            · exact ih c hc
          · simp only [hl] at hc
            rcases entries with s | n | b | _ | items | gfs
            · simp at hc; subst hc; exact hknm
            · simp at hc; subst hc; exact hknm
            · simp at hc; subst hc; exact hknm
            · simp at hc; subst hc; exact hknm
            · simp at hc
              rcases hc with hc | ⟨it, _, hit⟩ | hc
              · subst hc; exact hknm
              · by_cases hmh : mode = "hosts"
                · simp only [hmh, if_pos rfl] at hit
                  subst hit
                  simpa [SinkCall.groupName] using hk
                · simp only [if_neg hmh] at hit
                  subst hit
                  simpa [SinkCall.groupName] using hk
              · exact ih c hc
            · simp at hc; subst hc; exact hknm
      · simp only [if_neg hm] at hc
        simp at hc
        rcases hc with hc | hc
        · subst hc; exact hknm
        · exact ih c hc

/-- `add_groups`-level version of `add_groups_list_kinds`. -/
theorem add_groups_kinds (groups : Json) (mode : String) :
    ∀ c ∈ (add_groups groups mode).1,
      SinkCall.isPopulate c = false ∧
      (mode = "hosts" → SinkCall.isAddChild c = false) ∧
      (mode ≠ "hosts" → SinkCall.isAddHost c = false) := by
  rcases groups with _ | _ | _ | _ | _ | kvs <;> simp [add_groups]
  exact fun c hc => add_groups_list_kinds mode kvs c hc

/-- `add_groups`-level version of `add_groups_list_no_meta`. -/
theorem add_groups_no_meta (groups : Json) (mode : String) :
    ∀ c ∈ (add_groups groups mode).1,
      SinkCall.groupName c ≠ some "_meta" := by
  rcases groups with _ | _ | _ | _ | _ | kvs <;> simp [add_groups]
  exact fun c hc => add_groups_list_no_meta mode kvs c hc

/-- When `populate` completes without an exception, its trace is exactly the
hostvars pass followed by the "hosts" pass followed by the "children" pass,
and each of the three passes completed without an exception. -/
theorem populate_eq_of_ok (data : Json) (h : (populate data).2 = none) :
    (populate data).1 =
      (add_hostvars data).1 ++ (add_groups data "hosts").1
        ++ (add_groups data "children").1 ∧
    (add_hostvars data).2 = none ∧
    (add_groups data "hosts").2 = none ∧
    (add_groups data "children").2 = none := by
  rcases h1 : (add_hostvars data).2 with _ | e1
  · rcases h2 : (add_groups data "hosts").2 with _ | e2
    · rcases h3 : (add_groups data "children").2 with _ | e3
      · exact ⟨by simp [populate, h1, h2], rfl, rfl, rfl⟩
      · exact absurd h (by simp [populate, h1, h2, h3])
    · exact absurd h (by simp [populate, h1, h2])
  · exact absurd h (by simp [populate, h1])

/-- Every call in a `populate` trace (even a trace cut short by an
exception) comes from one of the three passes. -/
theorem populate_calls_sub (data : Json) :
    ∀ c ∈ (populate data).1,
      c ∈ (add_hostvars data).1 ∨ c ∈ (add_groups data "hosts").1
        ∨ c ∈ (add_groups data "children").1 := by
  intro c hc
  rcases h1 : (add_hostvars data).2 with _ | e1
  · rcases h2 : (add_groups data "hosts").2 with _ | e2
    · simp only [populate, h1, h2] at hc
      simpa using hc
    · simp only [populate, h1, h2] at hc
      simp at hc
      tauto
  · simp only [populate, h1] at hc
    exact Or.inl hc

/-- A `_populate_host_vars` call carries no group name. -/
theorem groupName_of_isPopulate (c : SinkCall)
    (h : SinkCall.isPopulate c = true) : SinkCall.groupName c = none := by
  cases c <;> simp_all [SinkCall.isPopulate, SinkCall.groupName]

/-- A `_populate_host_vars` call is not an `add_group` call. -/
theorem isAddGroupName_of_isPopulate (g : String) (c : SinkCall)
    (h : SinkCall.isPopulate c = true) :
    SinkCall.isAddGroupName g c = false := by
  cases c <;> simp_all [SinkCall.isPopulate, SinkCall.isAddGroupName]

theorem countAddGroup_cons_addGroup (g k : String) (l : List SinkCall) :
    countAddGroup g (SinkCall.addGroup k :: l) =
      (if k = g then 1 else 0) + countAddGroup g l := by
  by_cases hk : k = g <;>
    simp [countAddGroup, List.filter_cons, SinkCall.isAddGroupName, hk,
      Nat.add_comm]

theorem countAddGroup_map_mode (g mode k : String) (items : List Json) :
    countAddGroup g (items.map (fun it =>
      if mode = "hosts" then SinkCall.addHost it k
      else SinkCall.addChild k it)) = 0 := by
  apply countAddGroup_eq_zero
  intro c hc
  simp at hc
  obtain ⟨it, _, hit⟩ := hc
  by_cases hmh : mode = "hosts" <;> simp [hmh] at hit <;>
    simp [← hit, SinkCall.isAddGroupName]

theorem countKey_cons (g k : String) (v : Json)
    (kvs : List (String × Json)) :
    countKey g ((k, v) :: kvs) =
      (if k = g then 1 else 0) + countKey g kvs := by
  by_cases hk : k = g <;>
    simp [countKey, List.filter_cons, hk, Nat.add_comm]

theorem countKey_eq_zero (g : String) (kvs : List (String × Json))
    (h : g ∉ kvs.map Prod.fst) : countKey g kvs = 0 := by
  have hnil : kvs.filter (fun p => p.1 == g) = [] := by
    apply List.filter_eq_nil_iff.mpr
    intro p hp hpg
    have hpe : p.1 = g := by simpa using hpg
    exact h (hpe ▸ List.mem_map_of_mem Prod.fst hp)
  simp [countKey, hnil]

/-- In a dict (no duplicate keys), a present key is counted exactly once. -/
theorem countKey_nodup (g : String) (v : Json)
    (kvs : List (String × Json)) (hnd : (kvs.map Prod.fst).Nodup)
    (hmem : (g, v) ∈ kvs) : countKey g kvs = 1 := by
  induction kvs with
  | nil => cases hmem
  | cons hd rest ih =>
    obtain ⟨k, w⟩ := hd
    simp only [List.map_cons, List.nodup_cons] at hnd
    obtain ⟨hknin, hndr⟩ := hnd
    rcases List.mem_cons.mp hmem with heq | hmem'
    · have hg : g = k := congrArg Prod.fst heq
      subst hg
      rw [countKey_cons, if_pos rfl, countKey_eq_zero g rest hknin]
    · have hne : k ≠ g := by
        intro he
        exact hknin (he ▸ List.mem_map_of_mem Prod.fst hmem')
      rw [countKey_cons, if_neg hne, ih hndr hmem']

/-- In one error-free `add_groups` pass the number of `add_group(g)` calls
for a non-`_meta` key `g` equals the number of pairs of the top-level dict
carrying key `g`. -/
theorem add_groups_list_count (mode g : String) (hg : g ≠ "_meta")
    (kvs : List (String × Json))
    (hok : (add_groups_list mode kvs).2 = none) :
    countAddGroup g (add_groups_list mode kvs).1 = countKey g kvs := by
  induction kvs with
  | nil => simp [add_groups_list, countAddGroup, countKey]
  | cons hd rest ih =>
    obtain ⟨k, v⟩ := hd
    simp only [add_groups_list] at hok ⊢
    by_cases hk : k = "_meta"
    · rw [if_pos hk] at hok ⊢
      rw [ih hok, countKey_cons]
      rw [if_neg (show ¬ k = g from fun he => hg (he.symm.trans hk))]
      omega
    · rw [if_neg hk] at hok ⊢
      by_cases hmn : mode = "hosts" ∨ mode = "children"
      · rw [if_pos hmn] at hok ⊢
        rcases v with s | n | b | _ | its | fields
        · simp at hok
        · simp at hok
        · simp at hok
        · simp at hok
        · simp at hok
        · rcases hl : lookupKey fields mode with _ | entries
          · simp only [hl] at hok ⊢
            rw [countAddGroup_cons_addGroup, ih hok, countKey_cons]
          · simp only [hl] at hok ⊢
            rcases entries with s | n | b | _ | items | gfs
            · simp at hok
            · simp at hok
            · simp at hok
            · simp at hok
            · simp only [] at hok ⊢
              rw [countAddGroup_cons_addGroup, countAddGroup_append,
                countAddGroup_map_mode, ih hok, countKey_cons]
              omega
            · simp at hok
      · rw [if_neg hmn] at hok ⊢
        rw [countAddGroup_cons_addGroup, ih hok, countKey_cons]

/-- C4: for every HTTP response with status code ≥ 300, response validation
fails with the configuration error (`AnsibleError`) whose message mentions
the status code; the body is never parsed (`get_generic_page` propagates the
error instead of returning JSON) and no inventory population is performed
for that response (`parse` emits no sink call, whatever the settings). -/
theorem status_ge300_config_error (url : String) (r : Response)
    (h : 300 ≤ r.status_code) :
    ∃ msg,
      is_valid_content url r = .error (.ansibleError msg) ∧
      strContainsSub msg (toString r.status_code) = true ∧
      get_generic_page url r = .error (.ansibleError msg) ∧
      ∀ a : ParseArgs, (parse a r).calls = [] := by
  refine ⟨"Server returned status code " ++ toString r.status_code
    ++ ". Maybe server is in Maintenance or unreachable...", ?_, ?_, ?_, ?_⟩
  · simp [is_valid_content, h]
  · have hinf : (toString r.status_code).data <:+:
        ("Server returned status code " ++ toString r.status_code
          ++ ". Maybe server is in Maintenance or unreachable...").data := by
      refine ⟨"Server returned status code ".data,
        ". Maybe server is in Maintenance or unreachable...".data, ?_⟩
      simp [String.data_append]
    simpa [strContainsSub] using hinf
  · simp [get_generic_page, is_valid_content, h]
  · intro a
    rcases hu : a.envUrl <|> a.cfgUrl with _ | u
    · simp [parse, hu]
    · rcases ham : a.envAuthMethod <|> a.cfgAuthMethod with _ | am
      · simp [parse, hu, ham, get_generic_page, is_valid_content, h]
      · by_cases hN : am = "None"
        · simp [parse, hu, ham, hN, get_generic_page, is_valid_content, h]
        · by_cases hB : am = "basic"
          · simp [parse, hu, ham, hN, hB, get_generic_page,
              is_valid_content, h]
          · by_cases hG : am = "gitlab"
            · simp [parse, hu, ham, hN, hB, hG, get_gitlab_page,
                is_valid_content, h]
            · simp [parse, hu, ham, hN, hB, hG]

/-- Witness for C4 at the specification's example: a 404 response. -/
theorem status_ge300_config_error_witness :
    300 ≤ (⟨404, "application/json", Json.null⟩ : Response).status_code ∧
    ∃ msg,
      is_valid_content "http://x" ⟨404, "application/json", Json.null⟩
        = .error (.ansibleError msg) ∧
      strContainsSub msg (toString
        (⟨404, "application/json", Json.null⟩ : Response).status_code)
        = true ∧
      get_generic_page "http://x" ⟨404, "application/json", Json.null⟩
        = .error (.ansibleError msg) ∧
      ∀ a : ParseArgs,
        (parse a ⟨404, "application/json", Json.null⟩).calls = [] :=
  ⟨by decide,
    status_ge300_config_error "http://x" ⟨404, "application/json", Json.null⟩
      (by decide)⟩

/-- C5: for every response with status code < 300, validation fails with the
parse error (`AnsibleParserError`) exactly when the `Content-Type` header
does not contain the substring "json"; when it does, validation succeeds and
the body is returned as the parsed JSON. -/
theorem content_type_json_check (url : String) (r : Response)
    (hs : r.status_code < 300) :
    (strContainsSub r.contentType "json" = false →
      ∃ msg, is_valid_content url r = .error (.ansibleParserError msg) ∧
        get_generic_page url r = .error (.ansibleParserError msg)) ∧
    (strContainsSub r.contentType "json" = true →
      is_valid_content url r = .ok true ∧
      get_generic_page url r = .ok (some r.body)) := by
  have hns : ¬ 300 ≤ r.status_code := Nat.not_le.mpr hs
  constructor
  · intro hct
    refine ⟨url ++ " did not return json. The page must"
      ++ " return the same content as the ansible-inventory --list command.",
      by simp [is_valid_content, hns, hct],
      by simp [get_generic_page, is_valid_content, hns, hct]⟩
  · intro hct
    exact ⟨by simp [is_valid_content, hns, hct],
      by simp [get_generic_page, is_valid_content, hns, hct]⟩

/-- Witness for C5: a 200 response with `Content-Type: text/html`. -/
theorem content_type_json_check_witness :
    (⟨200, "text/html", Json.null⟩ : Response).status_code < 300 ∧
    ((strContainsSub (⟨200, "text/html", Json.null⟩ : Response).contentType
        "json" = false →
      ∃ msg, is_valid_content "http://x" ⟨200, "text/html", Json.null⟩
          = .error (.ansibleParserError msg) ∧
        get_generic_page "http://x" ⟨200, "text/html", Json.null⟩
          = .error (.ansibleParserError msg)) ∧
    (strContainsSub (⟨200, "text/html", Json.null⟩ : Response).contentType
        "json" = true →
      is_valid_content "http://x" ⟨200, "text/html", Json.null⟩ = .ok true ∧
      get_generic_page "http://x" ⟨200, "text/html", Json.null⟩
        = .ok (some (⟨200, "text/html", Json.null⟩ : Response).body))) :=
  ⟨by decide,
    content_type_json_check "http://x" ⟨200, "text/html", Json.null⟩
      (by decide)⟩

/-- C6: when `url` is absent both from the environment and from the config
file, `parse` raises the configuration error with zero HTTP requests issued
(before any network call) and no sink call. -/
theorem missing_url_config_error (a : ParseArgs) (r : Response)
    (h1 : a.envUrl = none) (h2 : a.cfgUrl = none) :
    (parse a r).requests = 0 ∧ (parse a r).calls = [] ∧
    ∃ msg, (parse a r).error = some (PyError.ansibleError msg) := by
  refine ⟨?_, ?_, ?_⟩ <;> simp [parse, h1, h2]

/-- Witness for C6: no `HTTP_URL` and no `url` option. -/
theorem missing_url_config_error_witness :
    (⟨none, none, none, none⟩ : ParseArgs).envUrl = none ∧
    (⟨none, none, none, none⟩ : ParseArgs).cfgUrl = none ∧
    ((parse ⟨none, none, none, none⟩ ⟨200, "application/json", Json.null⟩).requests = 0 ∧
     (parse ⟨none, none, none, none⟩ ⟨200, "application/json", Json.null⟩).calls = [] ∧
     ∃ msg, (parse ⟨none, none, none, none⟩ ⟨200, "application/json", Json.null⟩).error
        = some (PyError.ansibleError msg)) :=
  ⟨rfl, rfl,
    missing_url_config_error ⟨none, none, none, none⟩
      ⟨200, "application/json", Json.null⟩ rfl rfl⟩

/-- C8: for every resolved `auth_method` value outside
{absent, "None", "basic", "gitlab"}, no fetch branch matches: zero HTTP
requests are issued, no data is obtained, and `parse` fails in the populate
step with the "no data" parse error, emitting no sink call. -/
theorem unknown_auth_method_no_fetch (a : ParseArgs) (r : Response)
    (u am : String) (hu : (a.envUrl <|> a.cfgUrl) = some u)
    (ham : (a.envAuthMethod <|> a.cfgAuthMethod) = some am)
    (h1 : am ≠ "None") (h2 : am ≠ "basic") (h3 : am ≠ "gitlab") :
    parse a r = ⟨0, [], some (.ansibleParserError
      "Did not received any data. Can not parse inventory.")⟩ := by
  simp [parse, hu, ham, h1, h2, h3]

/-- Witness for C8: `HTTP_AUTH_METHOD=token`. -/
theorem unknown_auth_method_no_fetch_witness :
    ((⟨some "u", some "token", none, none⟩ : ParseArgs).envUrl
      <|> (⟨some "u", some "token", none, none⟩ : ParseArgs).cfgUrl)
      = some "u" ∧
    ((⟨some "u", some "token", none, none⟩ : ParseArgs).envAuthMethod
      <|> (⟨some "u", some "token", none, none⟩ : ParseArgs).cfgAuthMethod)
      = some "token" ∧
    "token" ≠ "None" ∧ "token" ≠ "basic" ∧ "token" ≠ "gitlab" ∧
    parse ⟨some "u", some "token", none, none⟩
        ⟨200, "application/json", Json.null⟩
      = ⟨0, [], some (.ansibleParserError
          "Did not received any data. Can not parse inventory.")⟩ :=
  ⟨rfl, rfl, by decide, by decide, by decide,
    unknown_auth_method_no_fetch ⟨some "u", some "token", none, none⟩
      ⟨200, "application/json", Json.null⟩ "u" "token" rfl rfl
      (by decide) (by decide) (by decide)⟩

/-- A pass over well-shaped group values never raises: every `groups[group]`
is an object and every present `hosts`/`children` entry is a list. -/
theorem add_groups_list_ok_of_wf (mode : String)
    (hm : mode = "hosts" ∨ mode = "children")
    (kvs : List (String × Json))
    (h : ∀ p ∈ kvs, p.1 = "_meta" ∨ wfGroupVal p.2 = true) :
    (add_groups_list mode kvs).2 = none := by
  induction kvs with
  | nil => simp [add_groups_list]
  | cons hd rest ih =>
    obtain ⟨k, v⟩ := hd
    have hrest : ∀ p ∈ rest, p.1 = "_meta" ∨ wfGroupVal p.2 = true :=
      fun p hp => h p (List.mem_cons_of_mem _ hp)
    simp only [add_groups_list]
    by_cases hk : k = "_meta"
    · rw [if_pos hk]
      exact ih hrest
    · rw [if_neg hk, if_pos hm]
      have hwv : wfGroupVal v = true := by
        rcases h (k, v) (List.Mem.head _) with h1 | h1
        · exact absurd h1 hk
        · exact h1
      rcases v with st | n | b | _ | its | fields
      · simp [wfGroupVal] at hwv
      · simp [wfGroupVal] at hwv
      · simp [wfGroupVal] at hwv
      · simp [wfGroupVal] at hwv
      · simp [wfGroupVal] at hwv
      · simp only [wfGroupVal, Bool.and_eq_true] at hwv
        obtain ⟨hh, hc⟩ := hwv
        rcases hl : lookupKey fields mode with _ | entries
        · simp only [hl]
          exact ih hrest
        · rcases hm with hmh | hmc
          · subst hmh
            rw [hl] at hh
            rcases entries with s2 | n2 | b2 | _ | items | fs2
            · simp at hh
            · simp at hh
            · simp at hh
            · simp at hh
            · simp only [hl]
              exact ih hrest
            · simp at hh
          · subst hmc
            rw [hl] at hc
            rcases entries with s2 | n2 | b2 | _ | items | fs2
            · simp at hc
            · simp at hc
            · simp at hc
            · simp at hc
            · simp only [hl]
              exact ih hrest
            · simp at hc

/-- On a well-shaped inventory document, population completes without an
exception. -/
theorem populate_ok_of_wf (kvs : List (String × Json))
    (h : wfDoc kvs = true) : (populate (Json.obj kvs)).2 = none := by
  have hsplit := h
  unfold wfDoc at hsplit
  rw [Bool.and_eq_true] at hsplit
  obtain ⟨hmeta, hall⟩ := hsplit
  have h1 : (add_hostvars (Json.obj kvs)).2 = none := by
    rcases hlm : lookupKey kvs "_meta" with _ | mv
    · simp [hlm] at hmeta
    · rcases mv with st | n | b | _ | its | mkvs
      · simp [hlm] at hmeta
      · simp [hlm] at hmeta
      · simp [hlm] at hmeta
      · simp [hlm] at hmeta
      · simp [hlm] at hmeta
      · rcases hlh : lookupKey mkvs "hostvars" with _ | hvv
        · simp [hlm, hlh] at hmeta
        · rcases hvv with st | n | b | _ | its | hvs
          · simp [hlm, hlh] at hmeta
          · simp [hlm, hlh] at hmeta
          · simp [hlm, hlh] at hmeta
          · simp [hlm, hlh] at hmeta
          · simp [hlm, hlh] at hmeta
          · simp [add_hostvars, getItem, hlm, hlh]
  have hall2 : ∀ p ∈ kvs, p.1 = "_meta" ∨ wfGroupVal p.2 = true := by
    intro p hp
    have hpa := List.all_eq_true.mp hall p hp
    rw [Bool.or_eq_true] at hpa
    rcases hpa with hb | hb
    · exact Or.inl (by simpa using hb)
    · exact Or.inr hb
  have h2 := add_groups_list_ok_of_wf "hosts" (Or.inl rfl) kvs hall2
  have h3 := add_groups_list_ok_of_wf "children" (Or.inr rfl) kvs hall2
  simp [populate, add_groups, h1, h2, h3]

/-- C1: on every well-shaped fetched inventory document, population
completes and the sink-call trace of `parse` is exactly three full passes in
a fixed order — the hostvars registrations (one `_populate_host_vars` per
host), then the "hosts" pass (whose calls are only `add_group`/`add_host`),
then the "children" pass (whose calls are only `add_group`/`add_child`) —
so every hostvars registration precedes every group operation and every
`hosts` assignment precedes every `children` assignment. -/
theorem parse_three_pass_order (kvs : List (String × Json))
    (hwf : wfDoc kvs = true) :
    (populate (Json.obj kvs)).2 = none ∧
    ∃ l1 l2 l3,
      (populate (Json.obj kvs)).1 = l1 ++ l2 ++ l3 ∧
      l1 = (add_hostvars (Json.obj kvs)).1 ∧
      l2 = (add_groups (Json.obj kvs) "hosts").1 ∧
      l3 = (add_groups (Json.obj kvs) "children").1 ∧
      (∀ c ∈ l1, SinkCall.isPopulate c = true) ∧
      (∀ c ∈ l2, SinkCall.isPopulate c = false ∧
        SinkCall.isAddChild c = false) ∧
      (∀ c ∈ l3, SinkCall.isPopulate c = false ∧
        SinkCall.isAddHost c = false) := by
  have h := populate_ok_of_wf kvs hwf
  obtain ⟨htr, _, _, _⟩ := populate_eq_of_ok _ h
  refine ⟨h, _, _, _, htr, rfl, rfl, rfl, ?_, ?_, ?_⟩
  · exact add_hostvars_all_populate _
  · intro c hc
    obtain ⟨hp, hh, _⟩ := add_groups_kinds _ "hosts" c hc
    exact ⟨hp, hh rfl⟩
  · intro c hc
    obtain ⟨hp, _, hh⟩ := add_groups_kinds _ "children" c hc
    exact ⟨hp, hh (by decide)⟩

/-- Witness for C1 at the specification's sample document. -/
theorem parse_three_pass_order_witness :
    wfDoc sampleKvs = true ∧
    ((populate (Json.obj sampleKvs)).2 = none ∧
    ∃ l1 l2 l3,
      (populate (Json.obj sampleKvs)).1 = l1 ++ l2 ++ l3 ∧
      l1 = (add_hostvars (Json.obj sampleKvs)).1 ∧
      l2 = (add_groups (Json.obj sampleKvs) "hosts").1 ∧
      l3 = (add_groups (Json.obj sampleKvs) "children").1 ∧
      (∀ c ∈ l1, SinkCall.isPopulate c = true) ∧
      (∀ c ∈ l2, SinkCall.isPopulate c = false ∧
        SinkCall.isAddChild c = false) ∧
      (∀ c ∈ l3, SinkCall.isPopulate c = false ∧
        SinkCall.isAddHost c = false)) :=
  ⟨rfl, parse_three_pass_order sampleKvs rfl⟩

/-- C7: the `_meta` top-level key is never treated as a group during
population: no call of the trace — in the hostvars, "hosts" or "children"
pass, even a trace cut short by an exception — carries `_meta` as its
group-name argument. -/
theorem meta_never_group (data : Json) :
    ∀ c ∈ (populate data).1, SinkCall.groupName c ≠ some "_meta" := by
  intro c hc
  rcases populate_calls_sub data c hc with h | h | h
  · rw [groupName_of_isPopulate c (add_hostvars_all_populate data c h)]
    simp
  · exact add_groups_no_meta data "hosts" c h
  · exact add_groups_no_meta data "children" c h

/-- Witness for C7: the `add_group("g1")` call of the sample document's
trace does not name `_meta`. -/
theorem meta_never_group_witness :
    SinkCall.addGroup "g1" ∈ (populate sampleDoc).1 ∧
    SinkCall.groupName (SinkCall.addGroup "g1") ≠ some "_meta" := by
  have hm : SinkCall.addGroup "g1" ∈ (populate sampleDoc).1 := by
    rw [show (populate sampleDoc).1 =
      [SinkCall.populateHostVars "h1" (Json.obj [("a", Json.num 1)]),
       SinkCall.addGroup "g1", SinkCall.addHost (Json.str "h1") "g1",
       SinkCall.addGroup "g2", SinkCall.addGroup "g1",
       SinkCall.addGroup "g2", SinkCall.addChild "g2" (Json.str "g1")]
      from rfl]
    exact List.Mem.tail _ (List.Mem.head _)
  exact ⟨hm, meta_never_group sampleDoc _ hm⟩

/-- C9: on every well-shaped fetched inventory document (a dict, hence
without duplicate keys), every non-`_meta` top-level group key `g` receives
exactly two `add_group(g)` calls: one in the "hosts" pass and one in the
"children" pass — so correctness relies on the sink's `add_group` being
idempotent. -/
theorem add_group_called_twice (kvs : List (String × Json)) (g : String)
    (v : Json) (hmem : (g, v) ∈ kvs) (hg : g ≠ "_meta")
    (hnd : (kvs.map Prod.fst).Nodup) (hwf : wfDoc kvs = true) :
    countAddGroup g (populate (Json.obj kvs)).1 = 2 := by
  have hok := populate_ok_of_wf kvs hwf
  obtain ⟨htr, _, h2, h3⟩ := populate_eq_of_ok _ hok
  rw [htr, countAddGroup_append, countAddGroup_append]
  have hz : countAddGroup g (add_hostvars (Json.obj kvs)).1 = 0 :=
    countAddGroup_eq_zero g _ (fun c hc =>
      isAddGroupName_of_isPopulate g c (add_hostvars_all_populate _ c hc))
  have hone : countKey g kvs = 1 := countKey_nodup g v kvs hnd hmem
  have hhosts : countAddGroup g (add_groups (Json.obj kvs) "hosts").1
      = countKey g kvs := by
    have hok2 : (add_groups_list "hosts" kvs).2 = none := by
      simpa [add_groups] using h2
    simpa [add_groups] using add_groups_list_count "hosts" g hg kvs hok2
  have hchildren : countAddGroup g (add_groups (Json.obj kvs) "children").1
      = countKey g kvs := by
    have hok3 : (add_groups_list "children" kvs).2 = none := by
      simpa [add_groups] using h3
    simpa [add_groups] using add_groups_list_count "children" g hg kvs hok3
  omega

/-- Witness for C9: in the sample document's trace, `add_group("g1")`
happens exactly twice. -/
theorem add_group_called_twice_witness :
    ("g1", Json.obj [("hosts", Json.arr [Json.str "h1"])]) ∈
      [("_meta", Json.obj [("hostvars",
          Json.obj [("h1", Json.obj [("a", Json.num 1)])])]),
       ("g1", Json.obj [("hosts", Json.arr [Json.str "h1"])]),
       ("g2", Json.obj [("children", Json.arr [Json.str "g1"])])] ∧
    "g1" ≠ "_meta" ∧
    wfDoc
      [("_meta", Json.obj [("hostvars",
          Json.obj [("h1", Json.obj [("a", Json.num 1)])])]),
       ("g1", Json.obj [("hosts", Json.arr [Json.str "h1"])]),
       ("g2", Json.obj [("children", Json.arr [Json.str "g1"])])]
      = true ∧
    countAddGroup "g1" (populate (Json.obj
      [("_meta", Json.obj [("hostvars",
          Json.obj [("h1", Json.obj [("a", Json.num 1)])])]),
       ("g1", Json.obj [("hosts", Json.arr [Json.str "h1"])]),
       ("g2", Json.obj [("children", Json.arr [Json.str "g1"])])])).1
      = 2 :=
  ⟨List.Mem.tail _ (List.Mem.head _), by decide, rfl,
    add_group_called_twice _ "g1" (Json.obj [("hosts",
        Json.arr [Json.str "h1"])])
      (List.Mem.tail _ (List.Mem.head _)) (by decide) (by simp) rfl⟩

/-- C10: a fetched JSON object without a `_meta` key, or whose `_meta`
object lacks a `hostvars` key, makes `parse` fail with the unguarded
`KeyError` (neither `AnsibleError` nor `AnsibleParserError`) during hostvars
registration, before any call reaches the sink. -/
theorem missing_meta_key_error :
    (∀ kvs : List (String × Json), lookupKey kvs "_meta" = none →
      populate (Json.obj kvs) = ([], some (PyError.keyError "_meta"))) ∧
    (∀ kvs mkvs : List (String × Json),
      lookupKey kvs "_meta" = some (Json.obj mkvs) →
      lookupKey mkvs "hostvars" = none →
      populate (Json.obj kvs) = ([], some (PyError.keyError "hostvars"))) ∧
    (∀ (a : ParseArgs) (u : String) (r : Response)
      (kvs : List (String × Json)),
      (a.envUrl <|> a.cfgUrl) = some u →
      (a.envAuthMethod <|> a.cfgAuthMethod) = none →
      r.status_code < 300 → strContainsSub r.contentType "json" = true →
      r.body = Json.obj kvs → lookupKey kvs "_meta" = none →
      parse a r = ⟨1, [], some (PyError.keyError "_meta")⟩) := by
  refine ⟨?_, ?_, ?_⟩
  · intro kvs hlk
    simp [populate, add_hostvars, getItem, hlk]
  · intro kvs mkvs hlk hlh
    simp [populate, add_hostvars, getItem, hlk, hlh]
  · intro a u r kvs hu ham hst hct hbody hlk
    have hns : ¬ 300 ≤ r.status_code := Nat.not_le.mpr hst
    have hv : get_generic_page u r = .ok (some r.body) := by
      simp [get_generic_page, is_valid_content, hns, hct]
    have hp : populate (Json.obj kvs) = ([], some (PyError.keyError "_meta")) := by
      simp [populate, add_hostvars, getItem, hlk]
    simp [parse, hu, ham, hv, hbody, hp]

/-- Witness for C10: a document whose only top-level key is `g1`. -/
theorem missing_meta_key_error_witness :
    lookupKey [("g1", Json.obj [("hosts", Json.arr [Json.str "h1"])])]
      "_meta" = none ∧
    populate (Json.obj
      [("g1", Json.obj [("hosts", Json.arr [Json.str "h1"])])])
      = ([], some (PyError.keyError "_meta")) :=
  ⟨rfl, missing_meta_key_error.1 _ rfl⟩

theorem dict2ini_length (M : List (String × List (String × Json)))
    (q : Bool) : (dict2ini M q).length = sizesSum M := by
  induction M with
  | nil => simp [dict2ini, sizesSum]
  | cons hd rest ih =>
    obtain ⟨s, opts⟩ := hd
    simp [dict2ini, sizesSum] at ih ⊢
    omega

theorem dict2ini_getElem (M : List (String × List (String × Json)))
    (q : Bool) :
    ∀ i : Nat, ∀ hi : i < M.length, ∀ j : Nat, ∀ hj : j < M[i].2.length,
      (dict2ini M q)[prefixSizes M i + j]? =
        some ⟨M[i].1, (M[i].2[j]).1, quoteVal q (M[i].2[j]).2⟩ := by
  induction M with
  | nil => intro i hi; exact absurd hi (Nat.not_lt_zero i)
  | cons hd rest ih =>
    obtain ⟨s, opts⟩ := hd
    intro i hi j hj
    cases i with
    | zero =>
      have hps : prefixSizes ((s, opts) :: rest) 0 = 0 := rfl
      rw [hps, Nat.zero_add]
      show (opts.map (fun ov => (⟨s, ov.1, quoteVal q ov.2⟩ : ConfigRecord))
        ++ dict2ini rest q)[j]? = _
      rw [List.getElem?_append]
      have hjm : j < (opts.map (fun ov =>
          (⟨s, ov.1, quoteVal q ov.2⟩ : ConfigRecord))).length := by
        simpa using hj
      have hj0 : j < opts.length := by simpa using hj
      rw [if_pos hjm, List.getElem?_map, List.getElem?_eq_getElem hj0]
      rfl
    | succ k =>
      have hkr : k < rest.length := by simpa using hi
      have hps : prefixSizes ((s, opts) :: rest) (k + 1)
          = opts.length + prefixSizes rest k := by
        simp [prefixSizes, sizesSum]
      have hjr : j < rest[k].2.length := by simpa using hj
      have hres := ih k hkr j hjr
      show (opts.map (fun ov => (⟨s, ov.1, quoteVal q ov.2⟩ : ConfigRecord))
        ++ dict2ini rest q)[prefixSizes ((s, opts) :: rest) (k + 1) + j]?
        = _
      rw [List.getElem?_append]
      have hlen : ¬ (prefixSizes ((s, opts) :: rest) (k + 1) + j
          < (opts.map (fun ov =>
            (⟨s, ov.1, quoteVal q ov.2⟩ : ConfigRecord))).length) := by
        simp only [List.length_map]
        omega
      rw [if_neg hlen]
      simp only [List.length_map]
      have hsub : prefixSizes ((s, opts) :: rest) (k + 1) + j - opts.length
          = prefixSizes rest k + j := by
        omega
      rw [hsub, hres]
      rfl

theorem dict2ini_mem (M : List (String × List (String × Json))) (q : Bool)
    (s : String) (opts : List (String × Json)) (o : String) (v : Json)
    (hs : (s, opts) ∈ M) (ho : (o, v) ∈ opts) :
    (⟨s, o, quoteVal q v⟩ : ConfigRecord) ∈ dict2ini M q := by
  induction M with
  | nil => cases hs
  | cons hd rest ih =>
    rcases List.mem_cons.mp hs with heq | hs'
    · obtain ⟨s2, opts2⟩ := hd
      obtain ⟨h1, h2⟩ := Prod.mk.injEq s2 opts2 s opts ▸ heq.symm
      subst h1; subst h2
      simp only [dict2ini]
      exact List.mem_append_left _ (List.mem_map.mpr ⟨(o, v), ho, rfl⟩)
    · obtain ⟨s2, opts2⟩ := hd
      simp only [dict2ini]
      exact List.mem_append_right _ (ih hs')

/-- C2: `dict2ini` returns exactly one record per (section, option) pair —
ΣKᵢ records in total — and the record at position
(records of the sections before section i) + j is built from section i's
j-th option pair, so output order is exactly the input's iteration order
(outer order, then inner order), with no deduplication and no sorting. -/
theorem dict2ini_flatten_order (M : List (String × List (String × Json)))
    (q : Bool) :
    (dict2ini M q).length = sizesSum M ∧
    (∀ i : Nat, ∀ hi : i < M.length, ∀ j : Nat, ∀ hj : j < M[i].2.length,
      (dict2ini M q)[prefixSizes M i + j]? =
        some ⟨M[i].1, (M[i].2[j]).1, quoteVal q (M[i].2[j]).2⟩) :=
  ⟨dict2ini_length M q, dict2ini_getElem M q⟩

/-- Witness for C2 at the specification's one-pair example. -/
theorem dict2ini_flatten_order_witness :
    0 < ([("s", [("o", Json.str "v")])] :
      List (String × List (String × Json))).length ∧
    0 < (([("s", [("o", Json.str "v")])] :
      List (String × List (String × Json)))[0]).2.length ∧
    (dict2ini [("s", [("o", Json.str "v")])] true)[
        prefixSizes [("s", [("o", Json.str "v")])] 0 + 0]? =
      some ⟨"s", "o", Json.str "\"v\""⟩ :=
  ⟨by decide, by decide,
    (dict2ini_flatten_order [("s", [("o", Json.str "v")])] true).2
      0 (by decide) 0 (by decide)⟩

/-- C3: the record emitted for a (section, option, value) pair carries the
value transformed by exactly the quoting rule: a string value with
`quote=true` is wrapped in literal double quotes, while a non-string value,
or any value with `quote=false`, passes through unchanged. -/
theorem dict2ini_quote_value (M : List (String × List (String × Json)))
    (q : Bool) (s : String) (opts : List (String × Json)) (o : String)
    (v : Json) (hs : (s, opts) ∈ M) (ho : (o, v) ∈ opts) :
    (⟨s, o, quoteVal q v⟩ : ConfigRecord) ∈ dict2ini M q ∧
    (∀ st : String, quoteVal true (Json.str st)
      = Json.str ("\"" ++ st ++ "\"")) ∧
    (∀ w : Json, (∀ st : String, w ≠ Json.str st) → quoteVal q w = w) ∧
    (∀ w : Json, quoteVal false w = w) := by
  refine ⟨dict2ini_mem M q s opts o v hs ho, fun st => rfl, ?_, ?_⟩
  · intro w hw
    rcases w with st | n | b | _ | its | fs
    · exact absurd rfl (hw st)
    · rfl
    · rfl
    · rfl
    · rfl
    · rfl
  · intro w
    rcases w with st | n | b | _ | its | fs <;> rfl

/-- Witness for C3 at the specification's one-pair example. -/
theorem dict2ini_quote_value_witness :
    (("s", [("o", Json.str "v")]) ∈
      ([("s", [("o", Json.str "v")])] :
        List (String × List (String × Json)))) ∧
    (("o", Json.str "v") ∈ [("o", Json.str "v")]) ∧
    ((⟨"s", "o", quoteVal true (Json.str "v")⟩ : ConfigRecord)
        ∈ dict2ini [("s", [("o", Json.str "v")])] true ∧
      (∀ st : String, quoteVal true (Json.str st)
        = Json.str ("\"" ++ st ++ "\"")) ∧
      (∀ w : Json, (∀ st : String, w ≠ Json.str st) →
        quoteVal true w = w) ∧
      (∀ w : Json, quoteVal false w = w)) :=
  ⟨List.Mem.head _, List.Mem.head _,
    dict2ini_quote_value _ true "s" _ "o" (Json.str "v")
      (List.Mem.head _) (List.Mem.head _)⟩
